import Mathlib

/-!
Verification model of the repository core: the fixed-point decimal `Amount`
type and the `Wallet` readiness / fee-dispatch state machine.

JavaScript strings are modelled as `List Char`; JavaScript `bigint` values are
modelled as `Int` (with `Nat` for values known to be non-negative); thrown
exceptions are modelled as `Except String`; asynchronous collaborator calls
(network client, sponsor callback, transaction waiting) are modelled as
explicit environment values recording each calls outcome.
-/

/-! ## Digit strings

Character-level toolkit mirroring the JavaScript string operations used by
`Amount` in the source: the regex `\d`, `String.prototype.padStart` /
`padEnd`, `split(".")`, `BigInt(...)` on digit strings, and
`BigInt.prototype.toString`.
-/

/-- Model of the regex character class `\d`: an ASCII decimal digit. -/
def isDigitCh (c : Char) : Bool :=
  48 ≤ c.toNat && c.toNat ≤ 57

/-- Numeric value of a digit character, as used by `BigInt` parsing. -/
def charDigit (c : Char) : Nat :=
  c.toNat - 48

/-- Digit character for a value below ten, as produced by `toString`. -/
def digitChar (d : Nat) : Char :=
  Char.ofNat (48 + d)

/-- All characters of the list are ASCII digits. -/
def allDigits (s : List Char) : Bool :=
  s.all isDigitCh

/-- Model of `BigInt(s)` on a string of decimal digits. -/
def digitsToNat (s : List Char) : Nat :=
  s.foldl (fun n c => 10 * n + charDigit c) 0

/-- Model of `s.padEnd(n, "0")`. -/
def padEnd (s : List Char) (n : Nat) : List Char :=
  s ++ List.replicate (n - s.length) '0'

/-- Model of `s.padStart(n, "0")`. -/
def padStart (s : List Char) (n : Nat) : List Char :=
  List.replicate (n - s.length) '0' ++ s

/-- Fuel-driven decimal printer; with fuel above the digit count it renders
the base-ten numeral of `n`, most significant digit first. -/
def natToDigitsAux : Nat → Nat → List Char
  | 0, _ => []
  | fuel + 1, n =>
    if n < 10 then [digitChar n]
    else natToDigitsAux fuel (n / 10) ++ [digitChar (n % 10)]

/-- Model of `BigInt.prototype.toString` for a non-negative value
(`(0n).toString()` is `"0"`). -/
def natToDigits (n : Nat) : List Char :=
  natToDigitsAux (n + 1) n

/-- Model of `BigInt.prototype.toString`, including the sign for negative
values. -/
def intToDigits (v : Int) : List Char :=
  if v < 0 then '-' :: natToDigits v.natAbs else natToDigits v.natAbs

/-- Model of `s.replace(/0+$/, "")`: strip trailing zero characters. -/
def dropTrailingZeros (s : List Char) : List Char :=
  (s.reverse.dropWhile (· == '0')).reverse

/-- Characters of `s` before its first dot: the first component of
`s.split(".")`. -/
def integerPart (s : List Char) : List Char :=
  s.takeWhile (· != '.')

/-- The remainder of `s` from its first dot on (empty when `s` has no dot). -/
def dotRest (s : List Char) : List Char :=
  s.dropWhile (· != '.')

/-- Characters of `s` after its first dot, or `[]` when `s` has no dot.
On any string accepted by the grammar below this is the second component of
`s.split(".")` (defaulted to `""`), since an accepted string has at most one
dot. -/
def fractionPart (s : List Char) : List Char :=
  match dotRest s with
  | [] => []
  | _ :: f => f

/-- Model of the validation regex `^\d+(\.\d+)?$` shared by `fromUnit`,
`multiply` and `divide`: one or more digits, optionally followed by a dot and
one or more digits. Everything after a dot must itself be a digit, which rules
out a second dot, so this decomposition is equivalent to the regex. -/
def matchesDecimal (s : List Char) : Bool :=
  let i := integerPart s
  match dotRest s with
  | [] => !i.isEmpty && allDigits i
  | _ :: f => !i.isEmpty && allDigits i && !f.isEmpty && allDigits f

/-! ## The Amount type (source file `part_002`) -/

/-- Fixed-point token amount: raw integer base value, decimal-place count and
optional symbol, exactly the three private fields of the `Amount` class. -/
structure Amount where
  baseValue : Int
  decimals : Nat
  symbol : Option String
  deriving DecidableEq, Repr

/-- `Amount.fromUnit`: validate with the grammar, reject precision overflow,
then right-pad the fraction to `decimals` digits and parse the concatenation.
The thrown errors are modelled as `Except.error` (inner quote marks of the
original messages are elided). -/
def Amount.fromUnit (s : List Char) (decimals : Nat) (symbol : Option String) :
    Except String Amount :=
  if !matchesDecimal s then
    .error ("Invalid unit amount: " ++ String.mk s ++ ". Must be a positive number.")
  else
    let integer := integerPart s
    let fraction := fractionPart s
    if decimals < fraction.length then
      .error ("Precision overflow: " ++ String.mk s ++ " exceeds " ++
        toString decimals ++ " decimal places.")
    else
      let paddedFraction := padEnd fraction decimals
      .ok ⟨(digitsToNat (integer ++ paddedFraction) : Int), decimals, symbol⟩

/-- `Amount.fromBase`: accepts the raw integer magnitude directly, with no
validation beyond integer parseability (so negative values are accepted). -/
def Amount.fromBase (v : Int) (decimals : Nat) (symbol : Option String) : Amount :=
  ⟨v, decimals, symbol⟩

/-- `Amount.toBase`: the raw base value verbatim. -/
def Amount.toBase (a : Amount) : Int :=
  a.baseValue

/-- `Amount.toUnit`: special-case zero decimals, otherwise left-pad the
stringified base value to `decimals + 1` characters, split by fixed offset
(`slice(0, -decimals)` / `slice(-decimals)`) and strip trailing fractional
zeros. -/
def Amount.toUnit (a : Amount) : List Char :=
  if a.decimals = 0 then
    intToDigits a.baseValue
  else
    let valueStr := intToDigits a.baseValue
    let padded := padStart valueStr (a.decimals + 1)
    let integer := padded.take (padded.length - a.decimals)
    let fraction := padded.drop (padded.length - a.decimals)
    let cleanFraction := dropTrailingZeros fraction
    if cleanFraction.isEmpty then integer else integer ++ '.' :: cleanFraction

/-- `Amount.isCompatible`: same decimals, and symbols only compared when both
are set. -/
def Amount.isCompatible (a other : Amount) : Bool :=
  if a.decimals ≠ other.decimals then false
  else if a.symbol ≠ none ∧ other.symbol ≠ none ∧ a.symbol ≠ other.symbol then false
  else true

/-- `Amount.subtract`: `assertCompatible` (same two checks as `isCompatible`,
throwing instead of returning false) then a direct base-value difference; the
symbol propagates from the receiver, else the argument (`??`). -/
def Amount.subtract (a other : Amount) : Except String Amount :=
  if a.decimals ≠ other.decimals then
    .error "Cannot perform arithmetic on amounts with different decimals"
  else if a.symbol ≠ none ∧ other.symbol ≠ none ∧ a.symbol ≠ other.symbol then
    .error "Cannot perform arithmetic on amounts with different symbols"
  else
    .ok ⟨a.baseValue - other.baseValue, a.decimals, a.symbol.orElse fun _ => other.symbol⟩

/-- Scaled scalar shared by `multiply` and `divide`: the scalar string with
its fraction right-padded to 18 digits and truncated to 18 digits
(`fraction.padEnd(18, "0").slice(0, 18)`), parsed as an integer. -/
def scaledScalar (s : List Char) : Nat :=
  digitsToNat (integerPart s ++ (padEnd (fractionPart s) 18).take 18)

/-- `Amount.multiply`: validate the scalar with the grammar, scale it to 18
fractional digits, multiply base values and scale back down with JavaScript
bigint division (truncation toward zero, `Int.tdiv`). -/
def Amount.multiply (a : Amount) (s : List Char) : Except String Amount :=
  if !matchesDecimal s then
    .error ("Invalid multiplier: " ++ String.mk s ++ ". Must be a positive number.")
  else
    .ok ⟨Int.tdiv (a.baseValue * (scaledScalar s : Int)) ((10 : Int) ^ 18),
      a.decimals, a.symbol⟩

/-- `Amount.divide`: validate the scalar with the grammar, scale it to 18
fractional digits, fail on a zero scaled divisor, else scale the base value up
by `10 ^ 18` and divide with JavaScript bigint division (truncation toward
zero, `Int.tdiv`). -/
def Amount.divide (a : Amount) (s : List Char) : Except String Amount :=
  if !matchesDecimal s then
    .error ("Invalid divisor: " ++ String.mk s ++ ". Must be a positive number.")
  else if scaledScalar s = 0 then
    .error "Division by zero"
  else
    .ok ⟨Int.tdiv (a.baseValue * (10 : Int) ^ 18) (scaledScalar s : Int),
      a.decimals, a.symbol⟩

/-- `Amount.eq`: false on incompatible operands, else base-value equality. -/
def Amount.eq (a other : Amount) : Bool :=
  if !a.isCompatible other then false else a.baseValue = other.baseValue

/-- `Amount.gt`: false on incompatible operands, else base-value order. -/
def Amount.gt (a other : Amount) : Bool :=
  if !a.isCompatible other then false else other.baseValue < a.baseValue

/-- `Amount.gte`: false on incompatible operands, else base-value order. -/
def Amount.gte (a other : Amount) : Bool :=
  if !a.isCompatible other then false else other.baseValue ≤ a.baseValue

/-- `Amount.lt`: false on incompatible operands, else base-value order. -/
def Amount.lt (a other : Amount) : Bool :=
  if !a.isCompatible other then false else a.baseValue < other.baseValue

/-- `Amount.lte`: false on incompatible operands, else base-value order. -/
def Amount.lte (a other : Amount) : Bool :=
  if !a.isCompatible other then false else a.baseValue ≤ other.baseValue

/-! ## Claim-side vocabulary

Definitions below formalise wording that appears in the claims themselves
(not in the source): canonicalisation of a decimal numeral. -/

/-- The claims canonicalisation of an accepted numeral: remove trailing
fractional zeros, and remove the decimal point too when the whole fraction
was zeros. -/
def stripTrailingFraction (s : List Char) : List Char :=
  match dotRest s with
  | [] => s
  | _ :: f =>
    let g := dropTrailingZeros f
    if g.isEmpty then integerPart s else integerPart s ++ '.' :: g

/-- The integer part carries no superfluous leading zero: it is a single
digit, or starts with a nonzero character. -/
def canonicalInt (i : List Char) : Bool :=
  match i with
  | [] => false
  | c :: t => c != '0' || t.isEmpty

/-! ## Digit-string lemmas -/

theorem digitsToNat_foldl (t : List Char) (a : Nat) :
    t.foldl (fun n c => 10 * n + charDigit c) a = a * 10 ^ t.length + digitsToNat t := by
  induction t generalizing a with
  | nil => simp [digitsToNat]
  | cons c t ih =>
    simp only [List.foldl_cons, List.length_cons, digitsToNat]
    rw [ih (10 * a + charDigit c), ih (10 * 0 + charDigit c)]
    ring

theorem digitsToNat_cons (c : Char) (t : List Char) :
    digitsToNat (c :: t) = charDigit c * 10 ^ t.length + digitsToNat t := by
  simpa [digitsToNat] using digitsToNat_foldl t (charDigit c)

theorem digitsToNat_append (s t : List Char) :
    digitsToNat (s ++ t) = digitsToNat s * 10 ^ t.length + digitsToNat t := by
  simpa [digitsToNat, List.foldl_append] using digitsToNat_foldl t (digitsToNat s)

theorem charDigit_lt_ten {c : Char} (h : isDigitCh c = true) : charDigit c < 10 := by
  simp only [isDigitCh, Bool.and_eq_true, decide_eq_true_eq] at h
  unfold charDigit
  omega

theorem digitsToNat_lt {t : List Char} (h : allDigits t = true) :
    digitsToNat t < 10 ^ t.length := by
  induction t with
  | nil => simp [digitsToNat]
  | cons c t ih =>
    simp only [allDigits, List.all_cons, Bool.and_eq_true] at h
    have hc := charDigit_lt_ten h.1
    have ht : digitsToNat t < 10 ^ t.length := ih h.2
    rw [digitsToNat_cons]
    have : charDigit c * 10 ^ t.length + digitsToNat t < (charDigit c + 1) * 10 ^ t.length := by
      nlinarith
    calc charDigit c * 10 ^ t.length + digitsToNat t
        < (charDigit c + 1) * 10 ^ t.length := this
      _ ≤ 10 * 10 ^ t.length := by
          exact Nat.mul_le_mul_right _ (by omega)
      _ = 10 ^ (c :: t).length := by rw [List.length_cons]; ring

theorem digitsToNat_replicate_zero (k : Nat) :
    digitsToNat (List.replicate k '0') = 0 := by
  induction k with
  | zero => simp [digitsToNat]
  | succ k ih =>
    rw [List.replicate_succ, digitsToNat_cons, ih]
    simp [charDigit]

theorem charDigit_digitChar {d : Nat} (h : d < 10) : charDigit (digitChar d) = d := by
  interval_cases d <;> decide

theorem isDigitCh_digitChar {d : Nat} (h : d < 10) : isDigitCh (digitChar d) = true := by
  interval_cases d <;> decide

theorem digitChar_charDigit {c : Char} (h : isDigitCh c = true) :
    digitChar (charDigit c) = c := by
  simp only [isDigitCh, Bool.and_eq_true, decide_eq_true_eq] at h
  have : 48 + (c.toNat - 48) = c.toNat := by omega
  rw [digitChar, charDigit, this, Char.ofNat_toNat]

theorem charDigit_eq_zero_iff {c : Char} (h : isDigitCh c = true) :
    charDigit c = 0 ↔ c = '0' := by
  constructor
  · intro hz
    have := digitChar_charDigit h
    rw [hz] at this
    exact this.symm
  · rintro rfl
    decide

theorem natToDigitsAux_eq (fuel : Nat) :
    ∀ n : Nat, 0 < n → n ≤ fuel →
      natToDigitsAux fuel n = ((Nat.digits 10 n).map digitChar).reverse := by
  induction fuel with
  | zero => intro n h0 h; omega
  | succ fuel ih =>
    intro n h0 h
    by_cases hn : n < 10
    · rw [natToDigitsAux, if_pos hn, Nat.digits_of_lt 10 n (by omega) hn]
      simp
    · rw [natToDigitsAux, if_neg hn, Nat.digits_def' (by norm_num : (1:Nat) < 10) h0]
      have hdiv : n / 10 < n := Nat.div_lt_self h0 (by norm_num)
      rw [ih (n / 10) (Nat.div_pos (by omega) (by norm_num)) (by omega)]
      simp

theorem natToDigits_pos_eq {n : Nat} (h0 : 0 < n) :
    natToDigits n = ((Nat.digits 10 n).map digitChar).reverse :=
  natToDigitsAux_eq (n + 1) n h0 (Nat.le_succ n)

theorem natToDigits_zero : natToDigits 0 = ['0'] := by decide

theorem allDigits_natToDigits (n : Nat) : allDigits (natToDigits n) = true := by
  rcases Nat.eq_zero_or_pos n with rfl | h0
  · decide
  · rw [natToDigits_pos_eq h0]
    simp only [allDigits, List.all_eq_true, List.mem_reverse, List.mem_map]
    rintro c ⟨d, hd, rfl⟩
    exact isDigitCh_digitChar (Nat.digits_lt_base (by norm_num) hd)

theorem natToDigits_length_le {n d : Nat} (h : n < 10 ^ d) (hd : 1 ≤ d) :
    (natToDigits n).length ≤ d := by
  rcases Nat.eq_zero_or_pos n with rfl | h0
  · rw [natToDigits_zero]; simpa using hd
  · rw [natToDigits_pos_eq h0]
    simp only [List.length_reverse, List.length_map]
    by_contra hlen
    push_neg at hlen
    have h1 : 10 ^ (Nat.digits 10 n).length ≤ 10 * n :=
      Nat.base_pow_length_digits_le 10 n (by norm_num) (by omega)
    have h2 : 10 ^ (d + 1) ≤ 10 ^ (Nat.digits 10 n).length :=
      Nat.pow_le_pow_right (by norm_num) (by omega)
    have h3 : 10 * n < 10 * 10 ^ d := by omega
    have h4 : (10:Nat) * 10 ^ d = 10 ^ (d + 1) := by ring
    omega

theorem digitsToNat_eq_ofDigits (t : List Char) :
    digitsToNat t = Nat.ofDigits 10 ((t.map charDigit).reverse) := by
  induction t with
  | nil => simp [digitsToNat, Nat.ofDigits]
  | cons c t ih =>
    rw [digitsToNat_cons, ih]
    simp only [List.map_cons, List.reverse_cons, Nat.ofDigits_append]
    simp [Nat.ofDigits]
    ring

theorem map_digitChar_charDigit {t : List Char} (h : allDigits t = true) :
    t.map (fun c => digitChar (charDigit c)) = t := by
  have : ∀ c ∈ t, digitChar (charDigit c) = id c := by
    intro c hc
    simp only [allDigits, List.all_eq_true] at h
    exact digitChar_charDigit (h c hc)
  rw [List.map_congr_left this, List.map_id]

theorem digitsToNat_pos_of_head_ne_zero {c : Char} {t : List Char}
    (hc : isDigitCh c = true) (hne : c ≠ '0') :
    0 < digitsToNat (c :: t) := by
  have h1 : 1 ≤ charDigit c := by
    rcases Nat.eq_zero_or_pos (charDigit c) with hz | hp
    · exact absurd ((charDigit_eq_zero_iff hc).mp hz) hne
    · exact hp
  have h2 : 1 ≤ 10 ^ t.length := Nat.one_le_pow _ _ (by norm_num)
  rw [digitsToNat_cons]
  nlinarith

theorem natToDigits_digitsToNat {t : List Char} (hd : allDigits t = true)
    (hc : canonicalInt t = true) :
    natToDigits (digitsToNat t) = t := by
  match t with
  | [] => simp [canonicalInt] at hc
  | c :: t0 =>
    simp only [allDigits, List.all_cons, Bool.and_eq_true] at hd
    by_cases hzc : c = '0'
    · have ht0 : t0 = [] := by
        subst hzc
        simp only [canonicalInt, bne_self_eq_false, Bool.false_or,
          List.isEmpty_eq_true] at hc
        exact hc
      subst ht0; subst hzc
      decide
    · have hpos : 0 < digitsToNat (c :: t0) := digitsToNat_pos_of_head_ne_zero hd.1 hzc
      rw [natToDigits_pos_eq hpos, digitsToNat_eq_ofDigits]
      have w1 : ∀ l ∈ ((c :: t0).map charDigit).reverse, l < 10 := by
        simp only [List.mem_reverse, List.mem_map]
        rintro l ⟨x, hx, rfl⟩
        have : allDigits (c :: t0) = true := by
          simp [allDigits, List.all_cons, hd.1, hd.2]
        simp only [allDigits, List.all_eq_true] at this
        exact charDigit_lt_ten (this x hx)
      have hLne : ((c :: t0).map charDigit).reverse ≠ [] := by simp
      have w2 : ∀ h : ((c :: t0).map charDigit).reverse ≠ [],
          (((c :: t0).map charDigit).reverse).getLast h ≠ 0 := by
        intro h
        have hrw : ((c :: t0).map charDigit).reverse
            = (t0.map charDigit).reverse ++ [charDigit c] := by simp
        rw [List.getLast_congr _ (by simp) hrw, List.getLast_append]
        intro hz
        exact hzc ((charDigit_eq_zero_iff hd.1).mp hz)
      rw [Nat.digits_ofDigits 10 (by norm_num) _ w1 w2]
      rw [List.map_reverse, List.reverse_reverse, List.map_map]
      exact map_digitChar_charDigit (by simp [allDigits, List.all_cons, hd.1, hd.2])

theorem padStart_of_le {s : List Char} {n : Nat} (h : n ≤ s.length) :
    padStart s n = s := by
  unfold padStart
  rw [Nat.sub_eq_zero_of_le h]
  simp

theorem padStart_succ_of_ge {s : List Char} {n : Nat} (h : s.length ≤ n) :
    padStart s (n + 1) = '0' :: padStart s n := by
  unfold padStart
  have : n + 1 - s.length = (n - s.length) + 1 := by omega
  rw [this, List.replicate_succ]
  simp

theorem padStart_length {s : List Char} {n : Nat} (h : s.length ≤ n) :
    (padStart s n).length = n := by
  unfold padStart
  simp only [List.length_append, List.length_replicate]
  omega

theorem digitsToNat_padEnd (f : List Char) (d : Nat) :
    digitsToNat (padEnd f d) = digitsToNat f * 10 ^ (d - f.length) := by
  unfold padEnd
  rw [digitsToNat_append, digitsToNat_replicate_zero, List.length_replicate]
  omega

theorem padEnd_length {f : List Char} {d : Nat} (h : f.length ≤ d) :
    (padEnd f d).length = d := by
  unfold padEnd
  simp only [List.length_append, List.length_replicate]
  omega

theorem allDigits_padEnd {f : List Char} {d : Nat} (h : allDigits f = true) :
    allDigits (padEnd f d) = true := by
  unfold padEnd allDigits
  rw [List.all_append]
  simp only [allDigits] at h
  rw [h]
  simp only [Bool.true_and, List.all_eq_true]
  intro c hc
  rw [List.eq_of_mem_replicate hc]
  decide

theorem dropWhile_zero_replicate (k : Nat) (l : List Char) :
    List.dropWhile (· == '0') (List.replicate k '0' ++ l)
      = List.dropWhile (· == '0') l := by
  induction k with
  | zero => simp
  | succ k ih => rw [List.replicate_succ, List.cons_append, List.dropWhile_cons_of_pos (by decide), ih]

theorem dropTrailingZeros_append_replicate (f : List Char) (k : Nat) :
    dropTrailingZeros (f ++ List.replicate k '0') = dropTrailingZeros f := by
  unfold dropTrailingZeros
  rw [List.reverse_append, List.reverse_replicate, dropWhile_zero_replicate]

theorem dropTrailingZeros_padEnd (f : List Char) (d : Nat) :
    dropTrailingZeros (padEnd f d) = dropTrailingZeros f :=
  dropTrailingZeros_append_replicate f (d - f.length)

theorem eq_single_zero_of_digitsToNat_zero {i : List Char} (hd : allDigits i = true)
    (hc : canonicalInt i = true) (hz : digitsToNat i = 0) : i = ['0'] := by
  match i with
  | [] => simp [canonicalInt] at hc
  | c :: t =>
    simp only [allDigits, List.all_cons, Bool.and_eq_true] at hd
    by_cases h0 : c = '0'
    · subst h0
      simp only [canonicalInt, bne_self_eq_false, Bool.false_or,
        List.isEmpty_eq_true] at hc
      rw [hc]
    · have := digitsToNat_pos_of_head_ne_zero (t := t) hd.1 h0
      omega

theorem padStart_natToDigits_digitsToNat {s : List Char} (hd : allDigits s = true)
    (h1 : 1 ≤ s.length) :
    padStart (natToDigits (digitsToNat s)) s.length = s := by
  have hst : s.takeWhile (· == '0') ++ s.dropWhile (· == '0') = s :=
    List.takeWhile_append_dropWhile (· == '0') s
  have hz : s.takeWhile (· == '0')
      = List.replicate (s.takeWhile (· == '0')).length '0' := by
    apply List.eq_replicate_of_mem
    intro b hb
    have := List.mem_takeWhile_imp hb
    simpa [beq_iff_eq] using this
  rcases htc : s.dropWhile (· == '0') with _ | ⟨c, r⟩
  · have hs : s = List.replicate s.length '0' := by
      conv_lhs => rw [← hst]
      rw [htc, List.append_nil, hz]
      congr 1
      conv_rhs => rw [← hst]
      rw [htc, List.append_nil]
    rw [hs, digitsToNat_replicate_zero, natToDigits_zero]
    unfold padStart
    rw [List.length_replicate]
    have h2 : s.length - 1 + 1 = s.length := by omega
    calc List.replicate (s.length - 1) '0' ++ ['0']
        = List.replicate (s.length - 1 + 1) '0' := (List.replicate_succ' _ _).symm
      _ = List.replicate s.length '0' := by rw [h2]
  · have hcd : c ≠ '0' := by
      have := List.head_dropWhile_not (· == '0') (l := s) (by rw [htc]; simp)
      simp only [htc, List.head_cons] at this
      simpa [beq_iff_eq] using this
    have hsub : List.Sublist (s.dropWhile (· == '0')) s := List.dropWhile_sublist _
    have hdt : allDigits (c :: r) = true := by
      simp only [allDigits, List.all_eq_true] at hd ⊢
      intro x hx
      exact hd x (hsub.subset (htc ▸ hx))
    have hval : digitsToNat s = digitsToNat (c :: r) := by
      conv_lhs => rw [← hst, htc]
      rw [digitsToNat_append]
      conv_lhs => rw [hz]
      rw [digitsToNat_replicate_zero]
      ring
    have hcanon : canonicalInt (c :: r) = true := by
      simp [canonicalInt, hcd]
    rw [hval, natToDigits_digitsToNat hdt hcanon]
    unfold padStart
    have hlen : s.length = (s.takeWhile (· == '0')).length + (c :: r).length := by
      conv_lhs => rw [← hst, htc]
      simp
    have h3 : s.length - (c :: r).length = (s.takeWhile (· == '0')).length := by omega
    rw [h3, ← hz]
    conv_rhs => rw [← hst, htc]

theorem canonicalInt_append {i : List Char} (hc : canonicalInt i = true)
    (hpos : 0 < digitsToNat i) (l : List Char) : canonicalInt (i ++ l) = true := by
  match i with
  | [] => simp [canonicalInt] at hc
  | c :: t =>
    by_cases h0 : c = '0'
    · subst h0
      simp only [canonicalInt, bne_self_eq_false, Bool.false_or,
        List.isEmpty_eq_true] at hc
      subst hc
      simp [digitsToNat, charDigit] at hpos
    · simp [canonicalInt, h0]

theorem toUnit_of_parts (i f : List Char) (d : Nat) (sym : Option String)
    (hi : allDigits i = true) (hci : canonicalInt i = true)
    (hf : allDigits f = true) (hfd : f.length ≤ d) :
    Amount.toUnit ⟨(digitsToNat (i ++ padEnd f d) : Int), d, sym⟩ =
      (if (dropTrailingZeros f).isEmpty then i else i ++ '.' :: dropTrailingZeros f) := by
  have hine : i ≠ [] := by
    intro h
    rw [h] at hci
    simp [canonicalInt] at hci
  by_cases hd0 : d = 0
  · subst hd0
    have hf0 : f = [] := List.eq_nil_of_length_eq_zero (by omega)
    subst hf0
    have hpe : padEnd [] 0 = [] := rfl
    rw [hpe, List.append_nil]
    have h0 : (⟨(digitsToNat i : Int), 0, sym⟩ : Amount).toUnit
        = intToDigits (digitsToNat i : Int) := by
      simp [Amount.toUnit]
    rw [h0]
    unfold intToDigits
    rw [if_neg (by simp), Int.natAbs_ofNat, natToDigits_digitsToNat hi hci]
    simp [dropTrailingZeros]
  · have hd1 : 1 ≤ d := by omega
    have hlf : (padEnd f d).length = d := padEnd_length hfd
    have hdf : allDigits (padEnd f d) = true := allDigits_padEnd hf
    have hN : digitsToNat (i ++ padEnd f d)
        = digitsToNat i * 10 ^ d + digitsToNat (padEnd f d) := by
      rw [digitsToNat_append, hlf]
    have hval : intToDigits ((digitsToNat (i ++ padEnd f d) : Int))
        = natToDigits (digitsToNat (i ++ padEnd f d)) := by
      unfold intToDigits
      rw [if_neg (by simp), Int.natAbs_ofNat]
    simp only [Amount.toUnit, if_neg hd0, hval]
    by_cases hiz : digitsToNat i = 0
    · have hi0 : i = ['0'] := eq_single_zero_of_digitsToNat_zero hi hci hiz
      have hNv : digitsToNat (i ++ padEnd f d) = digitsToNat (padEnd f d) := by
        rw [hN, hiz]
        ring
      have hflt : digitsToNat (padEnd f d) < 10 ^ d := by
        have := digitsToNat_lt hdf
        rwa [hlf] at this
      have hvlen : (natToDigits (digitsToNat (padEnd f d))).length ≤ d :=
        natToDigits_length_le hflt hd1
      have hpadded : padStart (natToDigits (digitsToNat (i ++ padEnd f d))) (d + 1)
          = '0' :: padEnd f d := by
        rw [hNv, padStart_succ_of_ge hvlen]
        congr 1
        have := padStart_natToDigits_digitsToNat hdf (by omega)
        rwa [hlf] at this
      rw [hpadded]
      have hplen : ('0' :: padEnd f d).length = d + 1 := by simp [hlf]
      rw [hplen]
      have h1 : d + 1 - d = 1 := by omega
      rw [h1]
      have htake : ('0' :: padEnd f d).take 1 = ['0'] := by simp
      have hdrop : ('0' :: padEnd f d).drop 1 = padEnd f d := by simp
      rw [htake, hdrop, dropTrailingZeros_padEnd, hi0]
  
    · have hipos : 0 < digitsToNat i := Nat.pos_of_ne_zero hiz
      have hall : allDigits (i ++ padEnd f d) = true := by
        simp only [allDigits, List.all_append] at hi hdf ⊢
        rw [hi, hdf]
        rfl
      have hvstr : natToDigits (digitsToNat (i ++ padEnd f d)) = i ++ padEnd f d :=
        natToDigits_digitsToNat hall (canonicalInt_append hci hipos _)
      rw [hvstr]
      have hilen : 1 ≤ i.length := by
        cases i with
        | nil => exact absurd rfl hine
        | cons c t => simp
      have hlen : (i ++ padEnd f d).length = i.length + d := by simp [hlf]
      have hps : padStart (i ++ padEnd f d) (d + 1) = i ++ padEnd f d :=
        padStart_of_le (by omega)
      rw [hps, hlen]
      have h2 : i.length + d - d = i.length := by omega
      rw [h2, List.take_left, List.drop_left, dropTrailingZeros_padEnd]

instance {ε α : Type} [DecidableEq ε] [DecidableEq α] : DecidableEq (Except ε α) := fun x y =>
  match x, y with
  | .ok a, .ok b =>
    if h : a = b then isTrue (by rw [h]) else isFalse (fun he => h (Except.ok.inj he))
  | .error a, .error b =>
    if h : a = b then isTrue (by rw [h]) else isFalse (fun he => h (Except.error.inj he))
  | .ok _, .error _ => isFalse (fun he => Except.noConfusion he)
  | .error _, .ok _ => isFalse (fun he => Except.noConfusion he)

theorem dropWhile_head_false {p : Char → Bool} {l : List Char} {c : Char} {r : List Char}
    (h : l.dropWhile p = c :: r) : p c = false := by
  have := List.head_dropWhile_not p (l := l) (by rw [h]; simp)
  simpa [h] using this

theorem matchesDecimal_integer {s : List Char} (h : matchesDecimal s = true) :
    integerPart s ≠ [] ∧ allDigits (integerPart s) = true := by
  unfold matchesDecimal at h
  cases hdr : dotRest s with
  | nil =>
    rw [hdr] at h
    simp at h
    exact ⟨h.1, h.2⟩
  | cons x f =>
    rw [hdr] at h
    simp at h
    exact ⟨h.1.1.1, h.1.1.2⟩

theorem matchesDecimal_dotRest {s : List Char} (h : matchesDecimal s = true) :
    (dotRest s = [] ∧ fractionPart s = [])
    ∨ (dotRest s = '.' :: fractionPart s ∧ fractionPart s ≠ []
        ∧ allDigits (fractionPart s) = true) := by
  cases hdr : dotRest s with
  | nil =>
    left
    exact ⟨rfl, by simp [fractionPart, hdr]⟩
  | cons x f =>
    right
    have hx : x = '.' := by
      have := dropWhile_head_false (p := (· != '.')) (l := s) hdr
      simpa [bne] using this
    have hfp : fractionPart s = f := by simp [fractionPart, hdr]
    unfold matchesDecimal at h
    rw [hdr] at h
    simp at h
    refine ⟨by rw [hx, hfp], ?_, ?_⟩
    · rw [hfp]
      exact h.1.2
    · rw [hfp]
      exact h.2

theorem parts_append (s : List Char) : integerPart s ++ dotRest s = s :=
  List.takeWhile_append_dropWhile _ _

theorem fromUnit_ok {s : List Char} {d : Nat} {sym : Option String}
    (hg : matchesDecimal s = true) (hfd : (fractionPart s).length ≤ d) :
    Amount.fromUnit s d sym
      = .ok ⟨(digitsToNat (integerPart s ++ padEnd (fractionPart s) d) : Int), d, sym⟩ := by
  unfold Amount.fromUnit
  rw [hg]
  simp only [Bool.not_true, Bool.false_eq_true, if_false]
  rw [if_neg (by omega)]

/-! ## Claim C1: fromUnit/toUnit round trip -/

/-- Claim C1 (amended): for every decimal string accepted by the grammar whose
integer part carries no superfluous leading zero, and whose fractional digit
count is at most `decimals`, `fromUnit` then `toUnit` returns the input with
trailing fractional zeros (and a bare trailing decimal point) removed. -/
theorem claim_C1_roundtrip (s : List Char) (d : Nat) (sym : Option String)
    (hg : matchesDecimal s = true)
    (hcanon : canonicalInt (integerPart s) = true)
    (hfd : (fractionPart s).length ≤ d) :
    (Amount.fromUnit s d sym).map Amount.toUnit = .ok (stripTrailingFraction s) := by
  have hii := matchesDecimal_integer hg
  have hfall : allDigits (fractionPart s) = true := by
    rcases matchesDecimal_dotRest hg with ⟨_, hfp⟩ | ⟨_, _, hfa⟩
    · rw [hfp]
      rfl
    · exact hfa
  rw [fromUnit_ok hg hfd]
  have hmap : (Except.ok (ε := String)
      (⟨(digitsToNat (integerPart s ++ padEnd (fractionPart s) d) : Int), d, sym⟩ : Amount)).map
        Amount.toUnit
      = .ok (Amount.toUnit
          ⟨(digitsToNat (integerPart s ++ padEnd (fractionPart s) d) : Int), d, sym⟩) := rfl
  rw [hmap, toUnit_of_parts _ _ _ _ hii.2 hcanon hfall hfd]
  rcases matchesDecimal_dotRest hg with ⟨hdr, hfp⟩ | ⟨hdr, hne, hfa⟩
  · have h1 : stripTrailingFraction s = s := by
      unfold stripTrailingFraction
      rw [hdr]
    have h2 : integerPart s = s := by
      have := parts_append s
      rw [hdr, List.append_nil] at this
      exact this
    rw [hfp, h1]
    simp [dropTrailingZeros, h2]
  · unfold stripTrailingFraction
    rw [hdr]

/-- Claim C1 counterexample: the string `01` is accepted by the grammar with
zero fractional digits, and removing trailing fractional zeros leaves it
unchanged, yet `fromUnit` then `toUnit` renders it as `1`. -/
theorem claim_C1_counterexample :
    matchesDecimal ['0', '1'] = true
    ∧ (fractionPart ['0', '1']).length ≤ 0
    ∧ (Amount.fromUnit ['0', '1'] 0 none).map Amount.toUnit = .ok ['1']
    ∧ stripTrailingFraction ['0', '1'] = ['0', '1']
    ∧ (['1'] : List Char) ≠ ['0', '1'] := by
  decide

/-- Witness for claim C1: the amended round trip evaluated at `4.0` with one
decimal place. -/
theorem claim_C1_witness :
    (Amount.fromUnit ['4', '.', '0'] 1 none).map Amount.toUnit = .ok ['4'] := by
  have h := claim_C1_roundtrip ['4', '.', '0'] 1 none (by decide) (by decide) (by decide)
  rw [h]
  decide

/-! ## Claim C3: fromUnit validation -/

/-- Claim C3 (amended): `fromUnit` fails exactly when the input string fails
the grammar or its fractional part has strictly more than `decimals` digits;
on success the base value is the integer part concatenated with the fraction
right-padded to exactly `decimals` digits. Hence `fromUnit("1.23", 2, "X")`
succeeds with base value `123` and `fromUnit("1.2", 2, "X")` succeeds with
base value `120`. -/
theorem claim_C3_fromUnit (s : List Char) (d : Nat) (sym : Option String) :
    ((Amount.fromUnit s d sym).isOk = false
      ↔ (matchesDecimal s = false ∨ d < (fractionPart s).length))
    ∧ (matchesDecimal s = true → (fractionPart s).length ≤ d →
        Amount.fromUnit s d sym
          = .ok ⟨(digitsToNat (integerPart s ++ padEnd (fractionPart s) d) : Int), d, sym⟩)
    ∧ (Amount.fromUnit ['1', '.', '2', '3'] 2 (some "X") = .ok ⟨123, 2, some "X"⟩)
    ∧ ((Amount.fromUnit ['1', '.', '2'] 2 (some "X")).map Amount.toBase = .ok 120) := by
  refine ⟨?_, fun hg hfd => fromUnit_ok hg hfd, by decide, by decide⟩
  by_cases hg : matchesDecimal s = true
  · unfold Amount.fromUnit
    rw [hg]
    simp only [Bool.not_true, Bool.false_eq_true, if_false]
    by_cases hover : d < (fractionPart s).length
    · rw [if_pos hover]
      simp [Except.isOk, Except.toBool, hover]
    · rw [if_neg hover]
      simp [Except.isOk, Except.toBool, hg, hover]
  · have hg' : matchesDecimal s = false := by simpa using hg
    unfold Amount.fromUnit
    rw [hg']
    simp [Except.isOk, Except.toBool, hg']

/-- Claim C3 counterexample: `fromUnit("1.23", 2, "X")` does not fail — two
fractional digits do not exceed two decimals — so it returns base value `123`. -/
theorem claim_C3_counterexample :
    (Amount.fromUnit ['1', '.', '2', '3'] 2 (some "X")).isOk = true
    ∧ Amount.fromUnit ['1', '.', '2', '3'] 2 (some "X") = .ok ⟨123, 2, some "X"⟩ := by
  decide

/-- Witness for claim C3: the success clause evaluated at `1.2` with two
decimals. -/
theorem claim_C3_witness :
    Amount.fromUnit ['1', '.', '2'] 2 (some "X") = .ok ⟨120, 2, some "X"⟩ := by
  have h := (claim_C3_fromUnit ['1', '.', '2'] 2 (some "X")).2.1 (by decide) (by decide)
  rw [h]
  decide

/-! ## Claim C4: divide -/

/-- Claim C4 (amended): for an accepted divisor string, `divide` fails exactly
when the divisor scaled to 18 fractional digits is the integer zero, and
otherwise the resulting base value is the quotient of `toBase() * 10^18` by
the scaled divisor truncated toward zero (the floor only for non-negative base
values); `fromUnit("10", 18).multiply("2").divide("2").toUnit()` is `"10"` and
`fromUnit("10", 18).divide(4).toUnit()` is `"2.5"`. -/
theorem claim_C4_divide (a : Amount) (ds : List Char) (hg : matchesDecimal ds = true) :
    ((a.divide ds).isOk = false ↔ scaledScalar ds = 0)
    ∧ (scaledScalar ds ≠ 0 →
        a.divide ds
          = .ok ⟨Int.tdiv (a.baseValue * (10 : Int) ^ 18) (scaledScalar ds : Int),
              a.decimals, a.symbol⟩)
    ∧ ((((Amount.fromUnit ['1', '0'] 18 none).bind (fun x => x.multiply ['2'])).bind
        (fun x => x.divide ['2'])).map Amount.toUnit = .ok ['1', '0'])
    ∧ (((Amount.fromUnit ['1', '0'] 18 none).bind (fun x => x.divide ['4'])).map
        Amount.toUnit = .ok ['2', '.', '5']) := by
  refine ⟨?_, ?_, by decide, by decide⟩
  · unfold Amount.divide
    rw [hg]
    simp only [Bool.not_true, Bool.false_eq_true, if_false]
    by_cases hz : scaledScalar ds = 0
    · rw [if_pos hz]
      simp [Except.isOk, Except.toBool, hz]
    · rw [if_neg hz]
      simp [Except.isOk, Except.toBool, hz]
  · intro hz
    unfold Amount.divide
    rw [hg]
    simp only [Bool.not_true, Bool.false_eq_true, if_false]
    rw [if_neg hz]

/-- Claim C4 counterexample: with the negative base value `-1` (reachable via
`fromBase` or `subtract`), dividing by `3` yields base value `0`, while the
floor of `(-1 * 10^18) / (3 * 10^18)` is `-1`. -/
theorem claim_C4_counterexample :
    ((Amount.fromBase (-1) 0 none).divide ['3']).map Amount.toBase = .ok 0
    ∧ Int.fdiv ((Amount.fromBase (-1) 0 none).toBase * (10 : Int) ^ 18)
        (scaledScalar ['3'] : Int) = -1
    ∧ ((0 : Int) ≠ -1) := by
  decide

/-- Witness for claim C4: the quotient clause evaluated at base value `5` with
divisor `2` (truncation: `2.5` becomes `2`). -/
theorem claim_C4_witness :
    (Amount.fromBase 5 0 none).divide ['2'] = .ok ⟨2, 0, none⟩ := by
  have h := (claim_C4_divide (Amount.fromBase 5 0 none) ['2'] (by decide)).2.1 (by decide)
  rw [h]
  decide

/-! ## Claim C10: multiply truncates the scalar to 18 fractional digits -/

theorem digitsToNat_eq_zero_of_all_zero {s : List Char} (h : ∀ c ∈ s, c = '0') :
    digitsToNat s = 0 := by
  rw [List.eq_replicate_of_mem h, digitsToNat_replicate_zero]

/-- Claim C10: `multiply` accepts any grammar-valid scalar (never a precision
failure), depends only on the integer part and the first 18 fractional digits
of the scalar, and a positive scalar below `10^-18` scales to zero, yielding
base value `0`. -/
theorem claim_C10_multiply :
    (∀ (a : Amount) (m : List Char), matchesDecimal m = true → (a.multiply m).isOk = true)
    ∧ (∀ (a : Amount) (m₁ m₂ : List Char), matchesDecimal m₁ = true →
        matchesDecimal m₂ = true → integerPart m₁ = integerPart m₂ →
        (padEnd (fractionPart m₁) 18).take 18 = (padEnd (fractionPart m₂) 18).take 18 →
        a.multiply m₁ = a.multiply m₂)
    ∧ (∀ (a : Amount) (m : List Char), matchesDecimal m = true →
        (∀ c ∈ integerPart m, c = '0') →
        (∀ c ∈ (fractionPart m).take 18, c = '0') →
        (∃ c ∈ fractionPart m, c ≠ '0') →
        (a.multiply m).map Amount.toBase = .ok 0) := by
  refine ⟨?_, ?_, ?_⟩
  · intro a m hg
    unfold Amount.multiply
    rw [hg]
    simp [Except.isOk, Except.toBool]
  · intro a m₁ m₂ hg₁ hg₂ hint hfr
    have hsc : scaledScalar m₁ = scaledScalar m₂ := by
      unfold scaledScalar
      rw [hint, hfr]
    unfold Amount.multiply
    rw [hg₁, hg₂, hsc]
    simp
  · intro a m hg hint hfr _
    have hsc : scaledScalar m = 0 := by
      unfold scaledScalar
      apply digitsToNat_eq_zero_of_all_zero
      intro c hc
      rcases List.mem_append.mp hc with hci | hcf
      · exact hint c hci
      · rw [padEnd, List.take_append_eq_append_take] at hcf
        rcases List.mem_append.mp hcf with hcf1 | hcf2
        · exact hfr c hcf1
        · exact List.eq_of_mem_replicate (List.take_subset _ _ hcf2)
    unfold Amount.multiply
    rw [hg]
    simp only [Bool.not_true, Bool.false_eq_true, if_false, hsc]
    simp [Amount.toBase, Except.map]

/-- Witness for claim C10: `1.5` and `1.50` multiply identically, and a scalar
of `10^-21` (all of whose first 18 fractional digits are zero) yields base
value `0`. -/
theorem claim_C10_witness :
    (Amount.fromBase 7 2 none).multiply ['1', '.', '5']
        = (Amount.fromBase 7 2 none).multiply ['1', '.', '5', '0']
    ∧ ((Amount.fromBase 7 2 none).multiply
        ['0', '.', '0', '0', '0', '0', '0', '0', '0', '0', '0', '0', '0', '0', '0',
          '0', '0', '0', '0', '0', '0', '1']).map Amount.toBase = .ok 0 := by
  have h := claim_C10_multiply
  refine ⟨h.2.1 _ _ _ (by decide) (by decide) (by decide) (by decide), ?_⟩
  exact h.2.2 _ _ (by decide) (by decide) (by decide) ⟨'1', by decide, by decide⟩

/-! ## Claim C5: comparisons on incompatible amounts -/

theorem isCompatible_iff (a b : Amount) :
    a.isCompatible b = true
      ↔ (a.decimals = b.decimals
          ∧ (a.symbol = none ∨ b.symbol = none ∨ a.symbol = b.symbol)) := by
  unfold Amount.isCompatible
  split_ifs with h1 h2
  · simp only [Bool.false_eq_true, false_iff]
    tauto
  · simp only [Bool.false_eq_true, false_iff]
    tauto
  · simp only [true_iff]
    constructor
    · tauto
    · tauto

theorem isCompatible_comm (a b : Amount) :
    a.isCompatible b = b.isCompatible a := by
  cases hab : a.isCompatible b <;> cases hba : b.isCompatible a <;> try rfl
  · have h := (isCompatible_iff b a).mp hba
    have h2 : a.isCompatible b = true := (isCompatible_iff a b).mpr ⟨h.1.symm, by tauto⟩
    rw [hab] at h2
    exact absurd h2 (by simp)
  · have h := (isCompatible_iff a b).mp hab
    have h2 : b.isCompatible a = true := (isCompatible_iff b a).mpr ⟨h.1.symm, by tauto⟩
    rw [hba] at h2
    exact absurd h2 (by simp)

/-- Claim C5: all five comparisons return false (and, being plain
boolean-valued functions, cannot throw) whenever the operands are
incompatible, and equality is symmetric on every pair of amounts. -/
theorem claim_C5_comparisons (a b : Amount) :
    (a.isCompatible b = false →
      a.eq b = false ∧ a.gt b = false ∧ a.gte b = false
        ∧ a.lt b = false ∧ a.lte b = false)
    ∧ a.eq b = b.eq a := by
  constructor
  · intro h
    unfold Amount.eq Amount.gt Amount.gte Amount.lt Amount.lte
    rw [h]
    simp
  · unfold Amount.eq
    rw [isCompatible_comm a b]
    cases hc : b.isCompatible a
    · simp
    · simp only [Bool.not_true, Bool.false_eq_true, if_false]
      simp [eq_comm]

/-- Witness for claim C5: the incompatibility clause evaluated on an 18-decimal
ETH amount against a 6-decimal USDC amount. -/
theorem claim_C5_witness :
    (Amount.fromBase 1 18 (some "ETH")).eq (Amount.fromBase 1 6 (some "USDC")) = false
    ∧ (Amount.fromBase 1 18 (some "ETH")).gt (Amount.fromBase 1 6 (some "USDC")) = false
    ∧ (Amount.fromBase 1 18 (some "ETH")).gte (Amount.fromBase 1 6 (some "USDC")) = false
    ∧ (Amount.fromBase 1 18 (some "ETH")).lt (Amount.fromBase 1 6 (some "USDC")) = false
    ∧ (Amount.fromBase 1 18 (some "ETH")).lte (Amount.fromBase 1 6 (some "USDC")) = false :=
  (claim_C5_comparisons (Amount.fromBase 1 18 (some "ETH"))
    (Amount.fromBase 1 6 (some "USDC"))).1 (by decide)

/-! ## Claim C9: subtract and negative base values -/

/-- Claim C9: on compatible operands `subtract` returns exactly the base-value
difference (negative whenever the subtrahend exceeds the minuend), while the
grammar and `fromUnit` reject negative numerals, so negative base values are
reachable through the public interface (`fromUnit` then `subtract`). -/
theorem claim_C9_subtract (a b : Amount) (hc : a.isCompatible b = true) :
    (a.subtract b
      = .ok ⟨a.toBase - b.toBase, a.decimals, a.symbol.orElse fun _ => b.symbol⟩)
    ∧ (∀ r, a.subtract b = .ok r → a.toBase < b.toBase → r.toBase < 0)
    ∧ (((Amount.fromUnit ['1'] 0 none).bind fun x =>
        (Amount.fromUnit ['2'] 0 none).bind fun y => x.subtract y).map Amount.toBase
          = .ok (-1))
    ∧ matchesDecimal ['-', '1'] = false
    ∧ (Amount.fromUnit ['-', '1'] 0 none).isOk = false := by
  have h := (isCompatible_iff a b).mp hc
  have hsub : a.subtract b
      = .ok ⟨a.toBase - b.toBase, a.decimals, a.symbol.orElse fun _ => b.symbol⟩ := by
    unfold Amount.subtract
    rw [if_neg (by tauto), if_neg (by tauto)]
    rfl
  refine ⟨hsub, ?_, by decide, by decide, by decide⟩
  intro r hr hlt
  rw [hsub] at hr
  have : r = ⟨a.toBase - b.toBase, a.decimals, a.symbol.orElse fun _ => b.symbol⟩ :=
    (Except.ok.inj hr).symm
  rw [this]
  simp only [Amount.toBase] at hlt ⊢
  omega

/-- Witness for claim C9: subtracting 2 from 1 (both built by `fromUnit`)
yields the negative base value `-1`. -/
theorem claim_C9_witness :
    (Amount.fromBase 1 0 none).subtract (Amount.fromBase 2 0 none) = .ok ⟨-1, 0, none⟩ := by
  have h := claim_C9_subtract (Amount.fromBase 1 0 none) (Amount.fromBase 2 0 none) (by decide)
  rw [h.1]
  decide

/-! ## The Wallet state machine (source file `src/wallet/index.ts`)

Network and sponsor collaborators are modelled as environment values: the
class-hash query either throws or returns a possibly-absent hash string, the
deploy-and-wait sequence either succeeds or throws, the sponsor callback
either returns a response or rejects with a message, and simulation either
throws, reports a revert reason (possibly null), or is clean. -/

/-- Progress checkpoints emitted by `ensureReady`. -/
inductive ProgressStep
  | CONNECTED
  | CHECK_DEPLOYED
  | DEPLOYING
  | READY
  deriving DecidableEq, Repr

/-- The `deploy` option of `ensureReady`. -/
inductive DeployMode
  | if_needed
  | never
  | always
  deriving DecidableEq, Repr

/-- Fee modes of the wallet. -/
inductive FeeMode
  | user_pays
  | sponsored
  deriving DecidableEq, Repr

/-- JavaScript truthiness of `classHash` as used by `!!classHash`: a present,
non-empty string. -/
def truthy (h : Option String) : Bool :=
  match h with
  | none => false
  | some s => !s.isEmpty

/-- `Wallet.isDeployed`: query the class hash; any thrown error is caught and
reported as `false`, otherwise return the truthiness of the hash. -/
def isDeployed (query : Except String (Option String)) : Bool :=
  match query with
  | .error _ => false
  | .ok h => truthy h

/-- Environment of one `ensureReady` run: the class-hash query outcome and the
outcome of `deploy` followed by `tx.wait` (modelled as one step, since
`ensureReady` only resumes after the wait). -/
structure WalletEnv where
  classHashQuery : Except String (Option String)
  deployResult : Except String Unit
  deriving DecidableEq, Repr

/-- Observable outcome of `ensureReady`: the progress steps emitted in order,
how many times `deploy` was invoked, and the returned or thrown result. -/
structure EnsureReadyOut where
  steps : List ProgressStep
  deployCalls : Nat
  result : Except String Unit
  deriving DecidableEq, Repr

/-- `Wallet.ensureReady`: emit CONNECTED and CHECK_DEPLOYED, query deployment,
then return READY, fail (mode `never`), or deploy, wait and emit READY. The
thrown error message is modelled without its inner quote marks. -/
def ensureReady (env : WalletEnv) (deploy : DeployMode) : EnsureReadyOut :=
  let deployed := isDeployed env.classHashQuery
  if deployed ∧ deploy ≠ DeployMode.always then
    ⟨[.CONNECTED, .CHECK_DEPLOYED, .READY], 0, .ok ()⟩
  else if (!deployed) ∧ deploy = DeployMode.never then
    ⟨[.CONNECTED, .CHECK_DEPLOYED], 0,
      .error "Account not deployed and deploy mode is never"⟩
  else
    match env.deployResult with
    | .error e => ⟨[.CONNECTED, .CHECK_DEPLOYED, .DEPLOYING], 1, .error e⟩
    | .ok _ => ⟨[.CONNECTED, .CHECK_DEPLOYED, .DEPLOYING, .READY], 1, .ok ()⟩

/-! ## Claim C2: the ensureReady state machine -/

/-- Claim C2: with the deployment query reporting undeployed and a successful
deploy, mode `if_needed` deploys exactly once and emits CONNECTED,
CHECK_DEPLOYED, DEPLOYING, READY in order; mode `never` fails with the
deployment-required error without deploying; when deployed and the mode is not
`always`, READY follows CHECK_DEPLOYED with no deploy. -/
theorem claim_C2_ensureReady (env : WalletEnv) :
    (isDeployed env.classHashQuery = false → env.deployResult = .ok () →
      ensureReady env .if_needed
        = ⟨[.CONNECTED, .CHECK_DEPLOYED, .DEPLOYING, .READY], 1, .ok ()⟩
      ∧ ensureReady env .never
        = ⟨[.CONNECTED, .CHECK_DEPLOYED], 0,
            .error "Account not deployed and deploy mode is never"⟩)
    ∧ (isDeployed env.classHashQuery = true → ∀ m, m ≠ DeployMode.always →
        ensureReady env m = ⟨[.CONNECTED, .CHECK_DEPLOYED, .READY], 0, .ok ()⟩) := by
  constructor
  · intro hdep hok
    unfold ensureReady
    constructor
    · rw [hdep, hok]
      simp
    · rw [hdep]
      simp
  · intro hdep m hm
    unfold ensureReady
    rw [hdep]
    simp [hm]

/-- Witness for claim C2: concrete runs against a throwing class-hash query
(undeployed) and a present class hash (deployed). -/
theorem claim_C2_witness :
    ensureReady ⟨.error "no class hash", .ok ()⟩ .if_needed
      = ⟨[.CONNECTED, .CHECK_DEPLOYED, .DEPLOYING, .READY], 1, .ok ()⟩
    ∧ ensureReady ⟨.error "no class hash", .ok ()⟩ .never
      = ⟨[.CONNECTED, .CHECK_DEPLOYED], 0,
          .error "Account not deployed and deploy mode is never"⟩
    ∧ ensureReady ⟨.ok (some "0x123"), .ok ()⟩ .if_needed
      = ⟨[.CONNECTED, .CHECK_DEPLOYED, .READY], 0, .ok ()⟩ := by
  have h1 := claim_C2_ensureReady ⟨.error "no class hash", .ok ()⟩
  have h2 := claim_C2_ensureReady ⟨.ok (some "0x123"), .ok ()⟩
  exact ⟨(h1.1 (by decide) rfl).1, (h1.1 (by decide) rfl).2,
    h2.2 (by decide) _ (by decide)⟩

/-! ## Claim C8: isDeployed -/

/-- Claim C8: `isDeployed` is a total boolean function that returns true
exactly when the query returns a truthy class hash, and false both when the
hash is absent or empty and when the query throws. -/
theorem claim_C8_isDeployed (q : Except String (Option String)) :
    (isDeployed q = true ↔ ∃ h, q = .ok h ∧ truthy h = true)
    ∧ (∀ e, q = .error e → isDeployed q = false)
    ∧ (∀ h, q = .ok h → truthy h = false → isDeployed q = false) := by
  refine ⟨?_, ?_, ?_⟩
  · cases q with
    | error e => simp [isDeployed]
    | ok h => simp [isDeployed]
  · rintro e rfl
    rfl
  · rintro h rfl ht
    simpa [isDeployed] using ht

/-- Witness for claim C8: a throwing query and an absent class hash both read
as not deployed. -/
theorem claim_C8_witness :
    isDeployed (.error "boom") = false ∧ isDeployed (.ok none) = false := by
  have h1 := (claim_C8_isDeployed (.error "boom")).2.1 "boom" rfl
  have h2 := (claim_C8_isDeployed (.ok none)).2.2 none rfl rfl
  exact ⟨h1, h2⟩

/-! ## Fee dispatch and sponsorship (source file `src/wallet/index.ts`) -/

/-- Sponsorship response: the optional fee-coverage fields returned by the
sponsor callback (payload contents are opaque to the claims). -/
structure SponsorshipResponse where
  resourceBounds : Option String
  paymasterData : Option String
  accountDeploymentData : Option String
  tip : Option Nat
  deriving DecidableEq, Repr

/-- Environment of one `execute` or `deploy` run: whether a sponsor is
configured, the sponsor-callback outcome (an error carries the rejection
message), and the network submission outcomes returning transaction hashes. -/
structure ExecEnv where
  sponsorConfigured : Bool
  sponsorOutcome : Except String SponsorshipResponse
  submitResult : Except String String
  deploySubmitResult : Except String String
  deriving DecidableEq, Repr

/-- `Wallet.requestSponsorship`: defensive configuration check, then delegate
to the sponsor callback; any callback failure is re-wrapped with the
`Sponsorship rejected: ` prefix (inner quote marks of the configuration
message elided). -/
def requestSponsorship (env : ExecEnv) : Except String SponsorshipResponse :=
  if !env.sponsorConfigured then
    .error "Sponsor not configured. Set sponsor in SDKConfig to use feeMode=sponsored"
  else
    match env.sponsorOutcome with
    | .ok r => .ok r
    | .error m => .error ("Sponsorship rejected: " ++ m)

/-- `Wallet.execute`: in sponsored mode obtain sponsorship first (its failure
propagates), then submit; in user-pays mode submit directly. -/
def walletExecute (env : ExecEnv) (feeMode : FeeMode) : Except String String :=
  match feeMode with
  | .sponsored => (requestSponsorship env).bind fun _ => env.submitResult
  | .user_pays => env.submitResult

/-- `Wallet.deploy`: same fee dispatch as `execute`, submitting the
deploy-account payload. -/
def walletDeploy (env : ExecEnv) (feeMode : FeeMode) : Except String String :=
  match feeMode with
  | .sponsored => (requestSponsorship env).bind fun _ => env.deploySubmitResult
  | .user_pays => env.deploySubmitResult

/-! ## Claim C6: sponsorship rejection wrapping -/

/-- Claim C6: when a sponsor is configured and the sponsor callback fails with
message `m`, sponsored `execute` and `deploy` fail with exactly the single
wrapped message `Sponsorship rejected: ` followed by `m`, which is never the
raw message itself. -/
theorem claim_C6_sponsorship (env : ExecEnv) (m : String)
    (hcfg : env.sponsorConfigured = true)
    (hrej : env.sponsorOutcome = .error m) :
    walletExecute env .sponsored = .error ("Sponsorship rejected: " ++ m)
    ∧ walletDeploy env .sponsored = .error ("Sponsorship rejected: " ++ m)
    ∧ "Sponsorship rejected: " ++ m ≠ m := by
  have hreq : requestSponsorship env = .error ("Sponsorship rejected: " ++ m) := by
    unfold requestSponsorship
    rw [hcfg, hrej]
    rfl
  refine ⟨?_, ?_, ?_⟩
  · unfold walletExecute
    rw [hreq]
    rfl
  · unfold walletDeploy
    rw [hreq]
    rfl
  · intro h
    have hlen := congrArg String.length h
    rw [String.length_append] at hlen
    have h22 : ("Sponsorship rejected: " : String).length = 22 := rfl
    omega

/-- Witness for claim C6: a sponsor rejecting with `Rate limit exceeded`
surfaces as the wrapped message. -/
theorem claim_C6_witness :
    walletExecute ⟨true, .error "Rate limit exceeded", .ok "0xabc", .ok "0xdef"⟩ .sponsored
      = .error "Sponsorship rejected: Rate limit exceeded" := by
  have h := claim_C6_sponsorship ⟨true, .error "Rate limit exceeded", .ok "0xabc", .ok "0xdef"⟩
    "Rate limit exceeded" rfl rfl
  rw [h.1]
  decide

/-! ## Preflight (source file `src/wallet/index.ts`) -/

/-- The `kind` of a preflight check: a pure `execute` or any other operation
(the source only distinguishes `kind !== "execute"`). -/
inductive PreflightKind
  | execute
  | deploy
  deriving DecidableEq, Repr

/-- Outcome of the simulation call: it throws, reports a revert reason
(possibly null, i.e. `none`), or is clean. -/
inductive SimOutcome
  | throws (msg : String)
  | reverted (reason : Option String)
  | clean
  deriving DecidableEq, Repr

/-- The structured `PreflightResult`. -/
structure PreflightResult where
  ok : Bool
  reason : Option String
  deriving DecidableEq, Repr

/-- Environment of one `preflight` run: class-hash query, sponsor
configuration presence, and the simulation outcome. -/
structure PreflightEnv where
  classHashQuery : Except String (Option String)
  sponsorConfigured : Bool
  sim : SimOutcome
  deriving DecidableEq, Repr

/-- The body of `Wallet.preflight` (the `try` block): deployment check,
sponsor-configuration check, then simulation when calls were supplied; a
thrown exception surfaces as `Except.error`. -/
def preflightBody (env : PreflightEnv) (kind : PreflightKind)
    (callsNonempty : Bool) (feeMode : FeeMode) : Except String PreflightResult :=
  if (!isDeployed env.classHashQuery) ∧ kind ≠ PreflightKind.execute then
    .ok ⟨false, some "Account not deployed"⟩
  else if feeMode = FeeMode.sponsored ∧ (!env.sponsorConfigured) then
    .ok ⟨false, some "Sponsor not configured"⟩
  else if callsNonempty then
    match env.sim with
    | .throws m => .error m
    | .reverted r => .ok ⟨false, some (r.getD "Simulation failed")⟩
    | .clean => .ok ⟨true, none⟩
  else
    .ok ⟨true, none⟩

/-- `Wallet.preflight`: the body wrapped in the `catch` clause, mapping any
exception to a failed structured result carrying its message. -/
def preflight (env : PreflightEnv) (kind : PreflightKind)
    (callsNonempty : Bool) (feeMode : FeeMode) : PreflightResult :=
  match preflightBody env kind callsNonempty feeMode with
  | .ok r => r
  | .error e => ⟨false, some e⟩

/-! ## Claim C7: preflight never throws -/

/-- Claim C7: for every combination of deployment state, fee mode, sponsor
configuration and simulation outcome, `preflight` returns a structured result
(success with no reason, or failure with a reason), every exception of the
body becomes a failure carrying the exception message, and in particular a
throwing simulation reached past the earlier checks yields exactly that
message. -/
theorem claim_C7_preflight (env : PreflightEnv) (kind : PreflightKind)
    (callsNonempty : Bool) (feeMode : FeeMode) :
    (preflight env kind callsNonempty feeMode = ⟨true, none⟩
      ∨ ∃ r, preflight env kind callsNonempty feeMode = ⟨false, some r⟩)
    ∧ (∀ m, preflightBody env kind callsNonempty feeMode = .error m →
        preflight env kind callsNonempty feeMode = ⟨false, some m⟩)
    ∧ (∀ m, env.sim = .throws m → callsNonempty = true →
        (isDeployed env.classHashQuery = true ∨ kind = PreflightKind.execute) →
        (feeMode = FeeMode.sponsored → env.sponsorConfigured = true) →
        preflight env kind callsNonempty feeMode = ⟨false, some m⟩) := by
  refine ⟨?_, ?_, ?_⟩
  · unfold preflight preflightBody
    split_ifs with h1 h2 h3
    · right
      exact ⟨_, rfl⟩
    · right
      exact ⟨_, rfl⟩
    · cases hs : env.sim with
      | throws m =>
        right
        exact ⟨m, rfl⟩
      | reverted r =>
        right
        exact ⟨_, rfl⟩
      | clean =>
        left
        rfl
    · left
      rfl
  · intro m hm
    unfold preflight
    rw [hm]
  · intro m hsim hcalls hguard1 hguard2
    unfold preflight preflightBody
    have hn1 : ¬((!isDeployed env.classHashQuery) = true ∧ kind ≠ PreflightKind.execute) := by
      rcases hguard1 with hd | hk
      · rw [hd]
        simp
      · rw [hk]
        simp
    have hn2 : ¬(feeMode = FeeMode.sponsored ∧ (!env.sponsorConfigured) = true) := by
      rintro ⟨hf, hsc⟩
      rw [hguard2 hf] at hsc
      simp at hsc
    rw [if_neg hn1, if_neg hn2, if_pos hcalls, hsim]

/-- Witness for claim C7: a deployed account, sponsored mode with a sponsor
configured, and a simulation that throws `boom`. -/
theorem claim_C7_witness :
    preflight ⟨.ok (some "0x1"), true, .throws "boom"⟩ .execute true .sponsored
      = ⟨false, some "boom"⟩ :=
  (claim_C7_preflight ⟨.ok (some "0x1"), true, .throws "boom"⟩ .execute true .sponsored).2.2
    "boom" rfl rfl (Or.inr rfl) (fun _ => rfl)
